import Mathlib

/-!
# KDJ indicator and J filter of `server/stock`

A shallow embedding of `calculateKDJ` and of the filter loop of `fetchStockData`
(`server/stock/get_all_kdj.go`) and of the `kdjJ` threshold handling of
`fetchAllStockData` (`server/stock/get_all_data.go`).

Conventions of the embedding.

* `float64` is an arbitrary carrier `F` with the operations the code uses
  (`+`, `-`, `*`, `/`, `<`, and the numeric literals, written as casts of natural
  numbers).  Structural results are proved for every such carrier, with no law
  assumed; results that talk about minima, bounds or closed forms are proved for
  every linearly ordered field, that is, for exact arithmetic.
* Go's `int` is a 64-bit two's complement integer: an `Int` reduced by `wrapInt`
  wherever the code computes with it.
* A slice is a `List`; an index out of range (a run-time panic in Go) is `none`.
* `time.Time` is an `Int` time stamp.
-/

namespace Stock

/-! ## Data model -/

/-- KDJData: the three oscillator values of one bar. -/
structure KDJData (F : Type) where
  K : F
  D : F
  J : F
deriving DecidableEq, Repr

/-- StockData: one bar with its KDJ annotation. -/
structure StockData (F : Type) where
  Symbol : String
  Name : String
  Close : F
  High : F
  Low : F
  Volume : F
  Date : Int
  KDJ : KDJData F
deriving DecidableEq, Repr

/-- The bar of a `StockData`: every field except `KDJ`. -/
def StockData.bar {F : Type} (b : StockData F) : String × String × F × F × F × F × Int :=
  (b.Symbol, b.Name, b.Close, b.High, b.Low, b.Volume, b.Date)

/-! ## Machine integers -/

/-- Reduction of an integer to the 64-bit two's complement range of Go's `int`. -/
def wrapInt (z : Int) : Int := (z + 2 ^ 63) % 2 ^ 64 - 2 ^ 63

/-- The values of Go's `int`. -/
def IsInt64 (z : Int) : Prop := -2 ^ 63 ≤ z ∧ z < 2 ^ 63

instance (z : Int) : Decidable (IsInt64 z) := by unfold IsInt64; infer_instance

/-! ## calculateKDJ -/

section Code

variable {F : Type} [Add F] [Sub F] [Mul F] [Div F] [NatCast F] [LT F]
  [@DecidableRel F (· < ·)]

/-- Lines 46-49: `startIdx := i - n + 1; if startIdx < 0 { startIdx = 0 }`. -/
def startIndex (i : Nat) (n : Int) : Nat :=
  let startIdx := wrapInt ((i : Int) - n + 1)
  if startIdx < 0 then 0 else startIdx.toNat

/-- Lines 52-63: `lowN`, `highN` after `c` iterations of the loop
`for j := startIdx; j <= i; j++`, started from `data[startIdx]`. -/
def scanWindow (data : List (StockData F)) (startIdx : Nat) : Nat → Option (F × F)
  | 0 => (data[startIdx]?).map (fun b => (b.Low, b.High))
  | c + 1 =>
    (scanWindow data startIdx c).bind (fun acc =>
      (data[startIdx + c]?).map (fun b =>
        (if b.Low < acc.1 then b.Low else acc.1, if b.High > acc.2 then b.High else acc.2)))

/-- Lines 45-63: the extrema `(lowN, highN)` used at position `i`; the inner loop runs
for `j = startIdx, ..., i`, that is `i + 1 - startIdx` times. -/
def windowExtrema (data : List (StockData F)) (n : Int) (i : Nat) : Option (F × F) :=
  scanWindow data (startIndex i n) (i + 1 - startIndex i n)

/-- Lines 66-69: `rsv` from the close and the window extrema. -/
def rsvOf (close lowN highN : F) : F :=
  if highN - lowN > ((1 : ℕ) : F) / ((1000000000 : ℕ) : F) then
    (close - lowN) / (highN - lowN) * ((100 : ℕ) : F)
  else ((0 : ℕ) : F)

/-- The variables of `calculateKDJ` that live across iterations of the outer loop. -/
structure KDJState (F : Type) where
  data : List (StockData F)
  k : F
  d : F

/-- Lines 44-89: the body of the outer loop at index `i`. -/
def kdjBody (n : Int) (st : KDJState F) (i : Nat) : Option (KDJState F) :=
  (windowExtrema st.data n i).bind (fun ext =>
    (st.data[i]?).map (fun bi =>
      let rsv := rsvOf bi.Close ext.1 ext.2
      let k := if i = 0 then ((50 : ℕ) : F)
        else ((2 : ℕ) : F) / ((3 : ℕ) : F) * st.k + ((1 : ℕ) : F) / ((3 : ℕ) : F) * rsv
      let d := if i = 0 then ((50 : ℕ) : F)
        else ((2 : ℕ) : F) / ((3 : ℕ) : F) * st.d + ((1 : ℕ) : F) / ((3 : ℕ) : F) * k
      let j := ((3 : ℕ) : F) * k - ((2 : ℕ) : F) * d
      { data := st.data.set i { bi with KDJ := { K := k, D := d, J := j } }, k := k, d := d }))

/-- Lines 40-90: the state after the first `m` iterations (`i = 0, ..., m - 1`) of
`for i := range data`. -/
def kdjIter (n : Int) (data : List (StockData F)) : Nat → Option (KDJState F)
  | 0 => some { data := data, k := ((50 : ℕ) : F), d := ((50 : ℕ) : F) }
  | m + 1 => (kdjIter n data m).bind (fun st => kdjBody n st m)

/-- Lines 34-93: `calculateKDJ`. -/
def calculateKDJ (data : List (StockData F)) (n : Int) : Option (List (StockData F)) :=
  if data.length = 0 then some data
  else (kdjIter n data data.length).map (fun st => st.data)

/-- Lines 207-213 of `fetchStockData`: the filter loop; the state is the slice ranged
over and `filteredData`. -/
def filterLoop : List (StockData F) → List (StockData F) × List (StockData F) →
    List (StockData F) × List (StockData F)
  | [], st => st
  | stock :: rest, st =>
    filterLoop rest (if stock.KDJ.J < ((0 : ℕ) : F) then (st.1, st.2 ++ [stock]) else st)

/-- Lines 207-213 of `fetchStockData`: `stockData` after the loop and `filteredData`. -/
def filterStage (stockData : List (StockData F)) : List (StockData F) × List (StockData F) :=
  filterLoop stockData (stockData, [])

end Code

/-! ## The kdjJ threshold of fetchAllStockData -/

/-- The comparison written in front of the number in the `f152` parameter. -/
inductive JCmp where
  | ge
  | le
deriving DecidableEq, Repr

/-- Lines 158-166 of `fetchAllStockData`: the `f152` parameter added for `kdjJ`, if any:
`">=%d"` of `kdjJ`, or `"<=%d"` of `-kdjJ` (negation of a Go `int`). -/
def kdjJFilter (kdjJ : Int) : Option (JCmp × Int) :=
  if kdjJ ≠ 0 then
    if kdjJ > 0 then some (JCmp.ge, kdjJ) else some (JCmp.le, wrapInt (-kdjJ))
  else none

/-- The J values a configured filter selects. -/
def JCmp.selects (c : JCmp) (bound : Int) (j : Int) : Prop :=
  match c with
  | JCmp.ge => bound ≤ j
  | JCmp.le => j ≤ bound

/-! ## Reference description of the result -/

section Reference

variable {F : Type} [Add F] [Sub F] [Mul F] [Div F] [NatCast F] [LT F]
  [@DecidableRel F (· < ·)]

/-- RSV at position `i`, computed on the bars of `data` (0 where the code would stop). -/
def rsvAt (data : List (StockData F)) (n : Int) (i : Nat) : F :=
  match windowExtrema data n i, data[i]? with
  | some ext, some b => rsvOf b.Close ext.1 ext.2
  | _, _ => ((0 : ℕ) : F)

/-- The pair `(K, D)` at position `i`, by the recurrence of lines 76-82. -/
def kdSeq (data : List (StockData F)) (n : Int) : Nat → F × F
  | 0 => (((50 : ℕ) : F), ((50 : ℕ) : F))
  | i + 1 =>
    let k := ((2 : ℕ) : F) / ((3 : ℕ) : F) * (kdSeq data n i).1
      + ((1 : ℕ) : F) / ((3 : ℕ) : F) * rsvAt data n (i + 1)
    (k, ((2 : ℕ) : F) / ((3 : ℕ) : F) * (kdSeq data n i).2 + ((1 : ℕ) : F) / ((3 : ℕ) : F) * k)

/-- The KDJ record built from `(K, D)` (lines 83-89). -/
def kdjPoint (p : F × F) : KDJData F :=
  { K := p.1, D := p.2, J := ((3 : ℕ) : F) * p.1 - ((2 : ℕ) : F) * p.2 }

/-- The series with the KDJ field of the first `m` bars overwritten. -/
def annotateUpTo (data : List (StockData F)) (n : Int) (m : Nat) : List (StockData F) :=
  data.mapIdx (fun i b => if i < m then { b with KDJ := kdjPoint (kdSeq data n i) } else b)

end Reference

/-! ## The specification's vocabulary -/

section SpecDefs

variable {F : Type} [LinearOrderedField F]

/-- The low prices of the bars with index in the window `[max(0, i - n + 1), i]`. -/
def windowLows (data : List (StockData F)) (n : Int) (i : Nat) : Set F :=
  {x | ∃ (j : Nat) (b : StockData F),
    max 0 ((i : Int) - n + 1) ≤ (j : Int) ∧ j ≤ i ∧ data[j]? = some b ∧ b.Low = x}

/-- The high prices of the bars with index in the window `[max(0, i - n + 1), i]`. -/
def windowHighs (data : List (StockData F)) (n : Int) (i : Nat) : Set F :=
  {x | ∃ (j : Nat) (b : StockData F),
    max 0 ((i : Int) - n + 1) ≤ (j : Int) ∧ j ≤ i ∧ data[j]? = some b ∧ b.High = x}

/-- RSV as the specification words it, from the close and the extrema of the window. -/
def specRSV (close lowestLow highestHigh : F) : F :=
  if highestHigh - lowestLow > 1 / 10 ^ 9 then
    (close - lowestLow) / (highestHigh - lowestLow) * 100
  else 0

end SpecDefs

/-! ## Sample inputs -/

/-- A bar with the given close, high and low, not yet annotated. -/
def mkBar (close high low : ℚ) : StockData ℚ :=
  { Symbol := "600000", Name := "S", Close := close, High := high, Low := low, Volume := 1,
    Date := 0, KDJ := { K := 0, D := 0, J := 0 } }

/-- The series of the windowing scenario: low = [10, 8, 12, 9], high = [15, 15, 20, 11]. -/
def sampleSeries : List (StockData ℚ) :=
  [mkBar 12 15 10, mkBar 12 15 8, mkBar 18 20 12, mkBar 10 11 9]

/-- A bar carrying the given J value. -/
def mkJ (j : ℚ) : StockData ℚ :=
  { Symbol := "600000", Name := "S", Close := 1, High := 1, Low := 1, Volume := 1,
    Date := 0, KDJ := { K := 0, D := 0, J := j } }

/-- The annotated points of the filter scenario: J = [5, -2, 0, -0.5]. -/
def sampleAnnotated : List (StockData ℚ) :=
  [mkJ 5, mkJ (-2), mkJ 0, mkJ (-1 / 2)]

/-! ## Auxiliary lemmas -/

theorem wrapInt_of_isInt64 {z : Int} (h : IsInt64 z) : wrapInt z = z := by
  unfold IsInt64 at h
  unfold wrapInt
  omega

theorem startIndex_eq {i : Nat} {n : Int} (hn : 1 ≤ n) (hn2 : n < 2 ^ 63)
    (hi : (i : Int) < 2 ^ 63) : startIndex i n = i + 1 - n.toNat := by
  unfold startIndex
  have hw : wrapInt ((i : Int) - n + 1) = (i : Int) - n + 1 :=
    wrapInt_of_isInt64 ⟨by omega, by omega⟩
  simp only [hw]
  split <;> omega

theorem getElem?_bar_eq {F : Type} {a b : List (StockData F)}
    (h : a.map StockData.bar = b.map StockData.bar) (j : Nat) :
    (a[j]?).map StockData.bar = (b[j]?).map StockData.bar := by
  rw [← List.getElem?_map, ← List.getElem?_map, h]

theorem bar_fields {F : Type} {x y : StockData F} (h : x.bar = y.bar) :
    x.Close = y.Close ∧ x.High = y.High ∧ x.Low = y.Low := by
  simp only [StockData.bar, Prod.mk.injEq] at h
  exact ⟨h.2.2.1, h.2.2.2.1, h.2.2.2.2.1⟩

theorem getElem?_bar_cases {F : Type} {a b : List (StockData F)}
    (h : a.map StockData.bar = b.map StockData.bar) (j : Nat) :
    (a[j]? = none ∧ b[j]? = none) ∨
      ∃ x y, a[j]? = some x ∧ b[j]? = some y ∧ x.bar = y.bar := by
  have key := getElem?_bar_eq h j
  cases ha : a[j]? with
  | none =>
    cases hb : b[j]? with
    | none => exact Or.inl ⟨rfl, rfl⟩
    | some y => rw [ha, hb] at key; simp at key
  | some x =>
    cases hb : b[j]? with
    | none => rw [ha, hb] at key; simp at key
    | some y =>
      rw [ha, hb] at key
      exact Or.inr ⟨x, y, rfl, rfl, by simpa using key⟩

theorem scanWindow_congr {F : Type} [LT F] [@DecidableRel F (· < ·)] {a b : List (StockData F)}
    (h : a.map StockData.bar = b.map StockData.bar) (s c : Nat) :
    scanWindow a s c = scanWindow b s c := by
  induction c with
  | zero =>
    simp only [scanWindow]
    rcases getElem?_bar_cases h s with ⟨ha, hb⟩ | ⟨x, y, ha, hb, hxy⟩
    · rw [ha, hb]
    · obtain ⟨-, hH, hL⟩ := bar_fields hxy
      rw [ha, hb]
      simp [hH, hL]
  | succ c ih =>
    simp only [scanWindow, ih]
    rcases getElem?_bar_cases h (s + c) with ⟨ha, hb⟩ | ⟨x, y, ha, hb, hxy⟩
    · rw [ha, hb]
    · obtain ⟨-, hH, hL⟩ := bar_fields hxy
      rw [ha, hb]
      simp [hH, hL]

theorem windowExtrema_congr {F : Type} [LT F] [@DecidableRel F (· < ·)] {a b : List (StockData F)}
    (h : a.map StockData.bar = b.map StockData.bar) (n : Int) (i : Nat) :
    windowExtrema a n i = windowExtrema b n i :=
  scanWindow_congr h _ _

section Lemmas

variable {F : Type} [Add F] [Sub F] [Mul F] [Div F] [NatCast F] [LT F]
  [@DecidableRel F (· < ·)]

omit [Add F] in
theorem rsvAt_congr {a b : List (StockData F)}
    (h : a.map StockData.bar = b.map StockData.bar) (n : Int) (i : Nat) :
    rsvAt a n i = rsvAt b n i := by
  unfold rsvAt
  rw [windowExtrema_congr h]
  rcases getElem?_bar_cases h i with ⟨ha, hb⟩ | ⟨x, y, ha, hb, hxy⟩
  · rw [ha, hb]
  · obtain ⟨hC, -, -⟩ := bar_fields hxy
    rw [ha, hb]
    cases windowExtrema b n i <;> simp [hC]

theorem kdSeq_congr {a b : List (StockData F)}
    (h : a.map StockData.bar = b.map StockData.bar) (n : Int) (i : Nat) :
    kdSeq a n i = kdSeq b n i := by
  induction i with
  | zero => rfl
  | succ i ih => simp only [kdSeq, ih, rsvAt_congr h]

theorem length_annotateUpTo (data : List (StockData F)) (n : Int) (m : Nat) :
    (annotateUpTo data n m).length = data.length := by
  simp [annotateUpTo]

theorem map_bar_annotateUpTo (data : List (StockData F)) (n : Int) (m : Nat) :
    (annotateUpTo data n m).map StockData.bar = data.map StockData.bar := by
  apply List.ext_getElem?
  intro j
  simp only [annotateUpTo, List.getElem?_map, List.getElem?_mapIdx, Option.map_map]
  cases data[j]? with
  | none => rfl
  | some b =>
    simp only [Option.map_some', Function.comp_apply]
    split <;> rfl

theorem annotateUpTo_zero (data : List (StockData F)) (n : Int) :
    annotateUpTo data n 0 = data := by
  apply List.ext_getElem?
  intro j
  simp [annotateUpTo]

theorem getElem?_annotateUpTo_self (data : List (StockData F)) (n : Int) (m : Nat) :
    (annotateUpTo data n m)[m]? = data[m]? := by
  simp only [annotateUpTo, List.getElem?_mapIdx]
  cases data[m]? <;> simp

theorem set_annotateUpTo (data : List (StockData F)) (n : Int) (m : Nat) (b : StockData F)
    (hb : data[m]? = some b) :
    (annotateUpTo data n m).set m { b with KDJ := kdjPoint (kdSeq data n m) }
      = annotateUpTo data n (m + 1) := by
  obtain ⟨hm, rfl⟩ := List.getElem?_eq_some_iff.mp hb
  apply List.ext_getElem?
  intro j
  rw [List.getElem?_set]
  by_cases hj : m = j
  · subst hj
    simp [annotateUpTo, hm]
  · simp only [hj, if_false, annotateUpTo, List.getElem?_mapIdx]
    cases data[j]? with
    | none => rfl
    | some x =>
      simp only [Option.map_some', Option.some.injEq]
      by_cases h1 : j < m
      · have h2 : j < m + 1 := by omega
        simp [h1, h2]
      · have h2 : ¬ j < m + 1 := by omega
        simp [h1, h2]

theorem kdjBody_annotate (data : List (StockData F)) (n : Int) (m : Nat) (ext : F × F)
    (b : StockData F) (hext : windowExtrema data n m = some ext) (hb : data[m]? = some b) :
    kdjBody n { data := annotateUpTo data n m, k := (kdSeq data n (m - 1)).1,
                d := (kdSeq data n (m - 1)).2 } m
      = some { data := annotateUpTo data n (m + 1), k := (kdSeq data n m).1,
               d := (kdSeq data n m).2 } := by
  unfold kdjBody
  simp only [windowExtrema_congr (map_bar_annotateUpTo data n m), hext,
    getElem?_annotateUpTo_self, hb, Option.some_bind, Option.map_some']
  cases m with
  | zero =>
    simp only [if_true]
    rw [← set_annotateUpTo data n 0 b hb]
    rfl
  | succ m =>
    have hr : rsvAt data n (m + 1) = rsvOf b.Close ext.1 ext.2 := by
      unfold rsvAt
      rw [hext, hb]
    simp only [Nat.succ_ne_zero, if_false, Nat.add_sub_cancel]
    rw [← set_annotateUpTo data n (m + 1) b hb]
    simp only [kdSeq, kdjPoint, hr]

theorem kdjIter_eq (data : List (StockData F)) (n : Int) (m : Nat)
    (hm : m ≤ data.length) (hext : ∀ i, i < m → ∃ ext, windowExtrema data n i = some ext) :
    kdjIter n data m
      = some { data := annotateUpTo data n m, k := (kdSeq data n (m - 1)).1,
               d := (kdSeq data n (m - 1)).2 } := by
  induction m with
  | zero => simp only [kdjIter, annotateUpTo_zero]; rfl
  | succ m ih =>
    have h1 := ih (by omega) (fun i hi => hext i (by omega))
    obtain ⟨ext, he⟩ := hext m (by omega)
    have hlt : m < data.length := by omega
    have hb : data[m]? = some (data[m]) := List.getElem?_eq_getElem hlt
    simp only [kdjIter, h1, Option.some_bind]
    rw [kdjBody_annotate data n m ext _ he hb]
    simp

theorem scanWindow_isSome {F : Type} [LT F] [@DecidableRel F (· < ·)] (data : List (StockData F)) (s c : Nat) (hs : s < data.length)
    (hc : s + c ≤ data.length) : ∃ ext, scanWindow data s c = some ext := by
  induction c with
  | zero => exact ⟨_, by simp only [scanWindow, List.getElem?_eq_getElem hs]; rfl⟩
  | succ c ih =>
    obtain ⟨ext, he⟩ := ih (by omega)
    have hlt : s + c < data.length := by omega
    exact ⟨_, by simp only [scanWindow, he, List.getElem?_eq_getElem hlt]; rfl⟩

theorem scanWindow_none {F : Type} [LT F] [@DecidableRel F (· < ·)] (data : List (StockData F)) (s c : Nat) (hs : data.length ≤ s) :
    scanWindow data s c = none := by
  induction c with
  | zero => simp only [scanWindow, List.getElem?_eq_none hs]; rfl
  | succ c ih => simp only [scanWindow, ih]; rfl

theorem windowExtrema_isSome {F : Type} [LT F] [@DecidableRel F (· < ·)] (data : List (StockData F)) (n : Int) (i : Nat)
    (hn : 1 ≤ n) (hn2 : n < 2 ^ 63) (hlen : (data.length : Int) < 2 ^ 63)
    (hi : i < data.length) : ∃ ext, windowExtrema data n i = some ext := by
  unfold windowExtrema
  rw [startIndex_eq hn hn2 (by omega)]
  exact scanWindow_isSome data _ _ (by omega) (by omega)

/-- The result of `calculateKDJ` for a window length of at least 1. -/
theorem calculateKDJ_eq (data : List (StockData F)) (n : Int)
    (hn : 1 ≤ n) (hn2 : n < 2 ^ 63) (hlen : (data.length : Int) < 2 ^ 63) :
    calculateKDJ data n = some (annotateUpTo data n data.length) := by
  unfold calculateKDJ
  split
  · next h =>
    have : data = [] := List.eq_nil_of_length_eq_zero h
    subst this
    rfl
  · rw [kdjIter_eq data n data.length (le_refl _)
      (fun i hi => windowExtrema_isSome data n i hn hn2 hlen hi)]
    rfl

end Lemmas

/-! ## Window extrema in a linear order -/

theorem scanWindow_extrema {F : Type} [LinearOrder F] (data : List (StockData F)) (s c : Nat)
    (lo hi : F) (h : scanWindow data s c = some (lo, hi)) :
    IsLeast {x | ∃ j b, s ≤ j ∧ j < s + max c 1 ∧ data[j]? = some b ∧ b.Low = x} lo ∧
    IsGreatest {x | ∃ j b, s ≤ j ∧ j < s + max c 1 ∧ data[j]? = some b ∧ b.High = x} hi := by
  induction c generalizing lo hi with
  | zero =>
    simp only [scanWindow, Option.map_eq_some', Prod.mk.injEq] at h
    obtain ⟨b, hb, rfl, rfl⟩ := h
    refine ⟨⟨⟨s, b, le_refl _, by simp, hb, rfl⟩, ?_⟩, ⟨⟨s, b, le_refl _, by simp, hb, rfl⟩, ?_⟩⟩
    · rintro x ⟨j, b2, h1, h2, h3, rfl⟩
      have hj : j = s := by simp at h2; omega
      subst hj
      rw [hb] at h3
      cases h3
      exact le_refl _
    · rintro x ⟨j, b2, h1, h2, h3, rfl⟩
      have hj : j = s := by simp at h2; omega
      subst hj
      rw [hb] at h3
      cases h3
      exact le_refl _
  | succ c ih =>
    simp only [scanWindow, Option.bind_eq_some, Option.map_eq_some', Prod.mk.injEq] at h
    obtain ⟨⟨lo2, hi2⟩, hprev, b, hb, hlo, hhi⟩ := h
    obtain ⟨⟨hmemL, hleL⟩, ⟨hmemH, hgeH⟩⟩ := ih lo2 hi2 hprev
    have hmax : s + max (c + 1) 1 = s + c + 1 := by
      have : max (c + 1) 1 = c + 1 := max_eq_left (by omega)
      omega
    have hsub : ∀ j, j < s + max c 1 → j < s + max (c + 1) 1 := by
      intro j hj
      rcases le_total c 1 with h1 | h1
      · rw [max_eq_right h1] at hj; omega
      · rw [max_eq_left h1] at hj; omega
    have hcase : ∀ j, s ≤ j → j < s + max (c + 1) 1 → j < s + max c 1 ∨ j = s + c := by
      intro j h1 h2
      rw [hmax] at h2
      by_cases h3 : j = s + c
      · exact Or.inr h3
      · left
        have : c ≤ max c 1 := le_max_left _ _
        omega
    simp only at hlo hhi
    refine ⟨⟨?_, ?_⟩, ⟨?_, ?_⟩⟩
    · rw [← hlo]
      split
      · exact ⟨s + c, b, by omega, by omega, hb, rfl⟩
      · obtain ⟨j, b2, h1, h2, h3, h4⟩ := hmemL
        exact ⟨j, b2, h1, hsub j h2, h3, h4⟩
    · rintro x ⟨j, b2, h1, h2, h3, rfl⟩
      have hlo1 : lo ≤ lo2 := by
        rw [← hlo]; split
        · next hlt => exact le_of_lt hlt
        · exact le_refl _
      have hlo2 : lo ≤ b.Low := by
        rw [← hlo]; split
        · exact le_refl _
        · next hlt => exact not_lt.mp hlt
      rcases hcase j h1 h2 with h5 | h5
      · exact le_trans hlo1 (hleL ⟨j, b2, h1, h5, h3, rfl⟩)
      · subst h5
        rw [hb] at h3
        cases h3
        exact hlo2
    · rw [← hhi]
      split
      · exact ⟨s + c, b, by omega, by omega, hb, rfl⟩
      · obtain ⟨j, b2, h1, h2, h3, h4⟩ := hmemH
        exact ⟨j, b2, h1, hsub j h2, h3, h4⟩
    · rintro x ⟨j, b2, h1, h2, h3, rfl⟩
      have hhi1 : hi2 ≤ hi := by
        rw [← hhi]; split
        · next hlt => exact le_of_lt hlt
        · exact le_refl _
      have hhi2 : b.High ≤ hi := by
        rw [← hhi]; split
        · exact le_refl _
        · next hlt => exact not_lt.mp hlt
      rcases hcase j h1 h2 with h5 | h5
      · exact le_trans (hgeH ⟨j, b2, h1, h5, h3, rfl⟩) hhi1
      · subst h5
        rw [hb] at h3
        cases h3
        exact hhi2

theorem windowExtrema_spec {F : Type} [LinearOrderedField F] (data : List (StockData F))
    (n : Int) (i : Nat) (hn : 1 ≤ n) (hn2 : n < 2 ^ 63) (hlen : (data.length : Int) < 2 ^ 63)
    (hi : i < data.length) (lo hi2 : F) (h : windowExtrema data n i = some (lo, hi2)) :
    IsLeast (windowLows data n i) lo ∧ IsGreatest (windowHighs data n i) hi2 := by
  unfold windowExtrema at h
  rw [startIndex_eq hn hn2 (by omega)] at h
  have key := scanWindow_extrema data _ _ lo hi2 h
  have hmax : max (i + 1 - (i + 1 - n.toNat)) 1 = i + 1 - (i + 1 - n.toNat) :=
    max_eq_left (by omega)
  rw [hmax] at key
  have hL : windowLows data n i = {x | ∃ j b, i + 1 - n.toNat ≤ j ∧
      j < i + 1 - n.toNat + (i + 1 - (i + 1 - n.toNat)) ∧ data[j]? = some b ∧ b.Low = x} := by
    ext x
    simp only [windowLows, Set.mem_setOf_eq]
    constructor <;> rintro ⟨j, b, h1, h2, h3, h4⟩ <;> exact ⟨j, b, by omega, by omega, h3, h4⟩
  have hH : windowHighs data n i = {x | ∃ j b, i + 1 - n.toNat ≤ j ∧
      j < i + 1 - n.toNat + (i + 1 - (i + 1 - n.toNat)) ∧ data[j]? = some b ∧ b.High = x} := by
    ext x
    simp only [windowHighs, Set.mem_setOf_eq]
    constructor <;> rintro ⟨j, b, h1, h2, h3, h4⟩ <;> exact ⟨j, b, by omega, by omega, h3, h4⟩
  rw [hL, hH]
  exact key

/-! ## Independence from the KDJ values of the input -/

theorem setKDJ_congr {F : Type} {x y : StockData F} (h : x.bar = y.bar) (k : KDJData F) :
    { x with KDJ := k } = { y with KDJ := k } := by
  cases x
  cases y
  simp only [StockData.bar, Prod.mk.injEq] at h
  simp only [StockData.mk.injEq, and_true]
  exact ⟨h.1, h.2.1, h.2.2.1, h.2.2.2.1, h.2.2.2.2.1, h.2.2.2.2.2.1, h.2.2.2.2.2.2⟩

section Independence

variable {F : Type} [Add F] [Sub F] [Mul F] [Div F] [NatCast F] [LT F]
  [@DecidableRel F (· < ·)]

theorem annotateUpTo_congr {a b : List (StockData F)}
    (h : a.map StockData.bar = b.map StockData.bar) (n : Int) :
    annotateUpTo a n a.length = annotateUpTo b n b.length := by
  apply List.ext_getElem?
  intro j
  simp only [annotateUpTo, List.getElem?_mapIdx]
  rcases getElem?_bar_cases h j with ⟨ha, hb⟩ | ⟨x, y, ha, hb, hxy⟩
  · rw [ha, hb]
    rfl
  · obtain ⟨hja, -⟩ := List.getElem?_eq_some_iff.mp ha
    obtain ⟨hjb, -⟩ := List.getElem?_eq_some_iff.mp hb
    rw [ha, hb]
    simp only [Option.map_some', hja, hjb, if_true, Option.some.injEq, kdSeq_congr h]
    exact setKDJ_congr hxy _

end Independence

/-! ## Stopping on an index out of range -/

section Stops

variable {F : Type} [Add F] [Sub F] [Mul F] [Div F] [NatCast F] [LT F]
  [@DecidableRel F (· < ·)]

theorem kdjBody_length {n : Int} {st st2 : KDJState F} {i : Nat}
    (h : kdjBody n st i = some st2) : st2.data.length = st.data.length := by
  unfold kdjBody at h
  simp only [Option.bind_eq_some, Option.map_eq_some'] at h
  obtain ⟨ext, -, bi, -, rfl⟩ := h
  simp

theorem kdjIter_length {n : Int} {data : List (StockData F)} {m : Nat} {st : KDJState F}
    (h : kdjIter n data m = some st) : st.data.length = data.length := by
  induction m generalizing st with
  | zero =>
    simp only [kdjIter, Option.some.injEq] at h
    rw [← h]
  | succ m ih =>
    simp only [kdjIter, Option.bind_eq_some] at h
    obtain ⟨st1, h1, h2⟩ := h
    rw [kdjBody_length h2, ih h1]

theorem kdjBody_none {n : Int} {st : KDJState F} {i : Nat}
    (h : st.data.length ≤ startIndex i n) : kdjBody n st i = none := by
  unfold kdjBody windowExtrema
  rw [scanWindow_none st.data _ _ h]
  rfl

theorem kdjIter_none_mono {n : Int} {data : List (StockData F)} {m m2 : Nat}
    (h : kdjIter n data m = none) (hm : m ≤ m2) : kdjIter n data m2 = none := by
  induction m2 with
  | zero =>
    have : m = 0 := by omega
    subst this
    exact h
  | succ k ih =>
    by_cases hk : m = k + 1
    · subst hk
      exact h
    · simp only [kdjIter, ih (by omega)]
      rfl

theorem kdjIter_none_of_start {n : Int} {data : List (StockData F)} {i : Nat}
    (hi : i < data.length) (hs : data.length ≤ startIndex i n) :
    kdjIter n data data.length = none := by
  have h1 : kdjIter n data (i + 1) = none := by
    simp only [kdjIter]
    cases h : kdjIter n data i with
    | none => rfl
    | some st =>
      simp only [Option.some_bind]
      exact kdjBody_none (by rw [kdjIter_length h]; exact hs)
  exact kdjIter_none_mono h1 (by omega)

theorem calculateKDJ_none (data : List (StockData F)) (n : Int) (hn : n < 1)
    (hmin : -2 ^ 63 + 2 ≤ n) (hlen : (data.length : Int) < 2 ^ 63) (hne : data ≠ []) :
    calculateKDJ data n = none := by
  have hpos : 0 < data.length := List.length_pos.mpr hne
  unfold calculateKDJ
  rw [if_neg (by omega)]
  have key : kdjIter n data data.length = none := by
    apply kdjIter_none_of_start (i := ((data.length : Int) + n - 1).toNat)
    · omega
    · unfold startIndex
      have hw : wrapInt (((((data.length : Int) + n - 1).toNat : Nat) : Int) - n + 1)
          = ((((data.length : Int) + n - 1).toNat : Nat) : Int) - n + 1 :=
        wrapInt_of_isInt64 ⟨by omega, by omega⟩
      simp only [hw]
      split <;> omega
  rw [key]
  rfl

end Stops

/-! ## The filter loop -/

theorem filterLoop_eq {F : Type} [NatCast F] [LT F] [@DecidableRel F (· < ·)]
    (xs : List (StockData F)) (st : List (StockData F) × List (StockData F)) :
    filterLoop xs st = (st.1, st.2 ++ xs.filter (fun s => decide (s.KDJ.J < ((0 : ℕ) : F)))) := by
  induction xs generalizing st with
  | nil => simp [filterLoop]
  | cons x xs ih =>
    simp only [filterLoop, ih, List.filter_cons]
    by_cases h : x.KDJ.J < ((0 : ℕ) : F)
    · simp [h]
    · simp [h]

/-! ## Positions of the result -/

section Positions

variable {F : Type} [Add F] [Sub F] [Mul F] [Div F] [NatCast F] [LT F]
  [@DecidableRel F (· < ·)]

theorem getElem?_annotate (data : List (StockData F)) (n : Int) (i : Nat) (b : StockData F)
    (h : (annotateUpTo data n data.length)[i]? = some b) :
    ∃ x, data[i]? = some x ∧ b = { x with KDJ := kdjPoint (kdSeq data n i) } := by
  simp only [annotateUpTo, List.getElem?_mapIdx, Option.map_eq_some'] at h
  obtain ⟨x, hx, hb⟩ := h
  obtain ⟨hi, -⟩ := List.getElem?_eq_some_iff.mp hx
  rw [if_pos hi] at hb
  exact ⟨x, hx, hb.symm⟩

end Positions

/-! ## Exact arithmetic -/

section Field

variable {F : Type} [LinearOrderedField F]

theorem rsvOf_eq_specRSV (close lo hi : F) : rsvOf close lo hi = specRSV close lo hi := by
  unfold rsvOf specRSV
  push_cast
  norm_num

theorem kdSeq_succ (data : List (StockData F)) (n : Int) (i : Nat) :
    (kdSeq data n (i + 1)).1 = 2 / 3 * (kdSeq data n i).1 + 1 / 3 * rsvAt data n (i + 1) ∧
    (kdSeq data n (i + 1)).2 = 2 / 3 * (kdSeq data n i).2 + 1 / 3 * (kdSeq data n (i + 1)).1 := by
  simp only [kdSeq]
  push_cast
  exact ⟨rfl, rfl⟩

theorem kdjPoint_J (p : F × F) : (kdjPoint p).J = 3 * p.1 - 2 * p.2 := by
  simp only [kdjPoint]
  push_cast
  rfl

theorem kdSeq_zero (data : List (StockData F)) (n : Int) : kdSeq data n 0 = (50, 50) := by
  simp only [kdSeq]
  push_cast
  rfl

theorem rsvAt_spec (data : List (StockData F)) (n : Int) (i : Nat) (hn : 1 ≤ n)
    (hn2 : n < 2 ^ 63) (hlen : (data.length : Int) < 2 ^ 63) (b : StockData F)
    (hb : data[i]? = some b) :
    ∃ lowN highN, IsLeast (windowLows data n i) lowN ∧ IsGreatest (windowHighs data n i) highN ∧
      rsvAt data n i = specRSV b.Close lowN highN := by
  obtain ⟨hi, -⟩ := List.getElem?_eq_some_iff.mp hb
  obtain ⟨⟨lo, hi2⟩, he⟩ := windowExtrema_isSome data n i hn hn2 hlen hi
  obtain ⟨hL, hH⟩ := windowExtrema_spec data n i hn hn2 hlen hi lo hi2 he
  refine ⟨lo, hi2, hL, hH, ?_⟩
  unfold rsvAt
  rw [he, hb]
  exact rsvOf_eq_specRSV _ _ _

end Field

section FieldSeries

variable {F : Type} [LinearOrderedField F]

end FieldSeries

/-! ## Claims -/

/-- Claim C3. For every series, every window length `n ≥ 1` and every index `i` inside the
series, the loop reaches iteration `i`, and the extrema it computes there are the least
low price and the greatest high price over exactly the bars with index in
`[max(0, i - n + 1), i]`. -/
theorem calculateKDJ_window_extrema {F : Type} [LinearOrderedField F]
    (data : List (StockData F)) (n : Int) (i : Nat) (hn : 1 ≤ n) (hint : IsInt64 n)
    (hlen : IsInt64 (data.length : Int)) (hi : i < data.length) :
    ∃ st lowN highN, kdjIter n data i = some st ∧
      windowExtrema st.data n i = some (lowN, highN) ∧
      IsLeast (windowLows data n i) lowN ∧ IsGreatest (windowHighs data n i) highN := by
  have hext : ∀ j, j < data.length → ∃ ext, windowExtrema data n j = some ext :=
    fun j hj => windowExtrema_isSome data n j hn hint.2 hlen.2 hj
  obtain ⟨⟨lo, hi2⟩, he⟩ := hext i hi
  refine ⟨_, lo, hi2, kdjIter_eq data n i (le_of_lt hi) (fun j hj => hext j (by omega)), ?_, ?_⟩
  · rw [windowExtrema_congr (map_bar_annotateUpTo data n i)]
    exact he
  · exact windowExtrema_spec data n i hn hint.2 hlen.2 hi lo hi2 he

/-- Witness of C3 on the windowing scenario: with `n = 3`, low = [10, 8, 12, 9] and
high = [15, 15, 20, 11], the extrema used at index 3 are 8 and 20. -/
theorem calculateKDJ_window_extrema_witness :
    ∃ st, kdjIter 3 sampleSeries 3 = some st ∧
      windowExtrema st.data 3 3 = some (8, 20) ∧
      IsLeast (windowLows sampleSeries 3 3) 8 ∧ IsGreatest (windowHighs sampleSeries 3 3) 20 := by
  obtain ⟨st, lo, hi, h1, h2, h3, h4⟩ :=
    calculateKDJ_window_extrema sampleSeries 3 3 (by decide) (by decide) (by decide) (by decide)
  have h5 : (kdjIter 3 sampleSeries 3).bind (fun st => windowExtrema st.data 3 3)
      = some (8, 20) := by decide
  rw [h1] at h5
  simp only [Option.some_bind] at h5
  rw [h5] at h2
  cases h2
  exact ⟨st, h1, h5, h3, h4⟩


/-- Claim C1. For every series and every window length `n ≥ 1`, `calculateKDJ` returns a
series of the same length (the empty series for the empty series) whose element at every
index carries the bar of the input at that index: symbol, name, close, high, low, volume
and date are unchanged and in the same order, so that only the KDJ field can differ. -/
theorem calculateKDJ_length_bars {F : Type} [Add F] [Sub F] [Mul F] [Div F] [NatCast F] [LT F]
    [@DecidableRel F (· < ·)] (data : List (StockData F))
    (n : Int) (hn : 1 ≤ n) (hint : IsInt64 n) (hlen : IsInt64 (data.length : Int)) :
    ∃ out, calculateKDJ data n = some out ∧ out.length = data.length ∧
      (data = [] → out = []) ∧
      ∀ i : Nat, (out[i]?).map StockData.bar = (data[i]?).map StockData.bar := by
  refine ⟨_, calculateKDJ_eq data n hn hint.2 hlen.2, length_annotateUpTo _ _ _, ?_, ?_⟩
  · intro h
    subst h
    rfl
  · intro i
    exact getElem?_bar_eq (map_bar_annotateUpTo data n data.length) i

/-- Witness of C1 on the four-bar sample series with `n = 3`. -/
theorem calculateKDJ_length_bars_witness :
    ∃ out, calculateKDJ sampleSeries 3 = some out ∧ out.length = sampleSeries.length ∧
      (sampleSeries = [] → out = []) ∧
      ∀ i : Nat, (out[i]?).map StockData.bar = (sampleSeries[i]?).map StockData.bar :=
  calculateKDJ_length_bars sampleSeries 3 (by decide) (by decide) (by decide)

/-- Claim C7. For every series and every `n ≥ 1`, running `calculateKDJ` again on its own
result returns that result unchanged, and every series with the same bars, whatever its
KDJ values, gives the same result. -/
theorem calculateKDJ_idempotent {F : Type} [Add F] [Sub F] [Mul F] [Div F] [NatCast F] [LT F]
    [@DecidableRel F (· < ·)] (data : List (StockData F))
    (n : Int) (hn : 1 ≤ n) (hint : IsInt64 n) (hlen : IsInt64 (data.length : Int)) :
    ∃ out, calculateKDJ data n = some out ∧ calculateKDJ out n = some out ∧
      ∀ data2 : List (StockData F), data2.map StockData.bar = data.map StockData.bar →
        calculateKDJ data2 n = some out := by
  have key : ∀ data2 : List (StockData F), data2.map StockData.bar = data.map StockData.bar →
      calculateKDJ data2 n = some (annotateUpTo data n data.length) := by
    intro data2 h
    have hl : data2.length = data.length := by
      have := congrArg List.length h
      simpa using this
    rw [calculateKDJ_eq data2 n hn hint.2 (by rw [hl]; exact hlen.2), annotateUpTo_congr h n]
  exact ⟨_, calculateKDJ_eq data n hn hint.2 hlen.2,
    key _ (map_bar_annotateUpTo data n data.length), key⟩

/-- Witness of C7 on the four-bar sample series with `n = 9`. -/
theorem calculateKDJ_idempotent_witness :
    ∃ out, calculateKDJ sampleSeries 9 = some out ∧ calculateKDJ out 9 = some out ∧
      ∀ data2 : List (StockData ℚ),
        data2.map StockData.bar = sampleSeries.map StockData.bar →
        calculateKDJ data2 9 = some out :=
  calculateKDJ_idempotent sampleSeries 9 (by decide) (by decide) (by decide)

/-- Counterexample to C4 as stated: with `n = 0 < 1` and the empty series `calculateKDJ`
does not fail, it returns the empty series; so "fails if and only if `n < 1`" is false. -/
theorem calculateKDJ_no_validation :
    ¬ (calculateKDJ ([] : List (StockData ℚ)) 0 = none ↔ (0 : Int) < 1) := by
  intro h
  have h2 : calculateKDJ ([] : List (StockData ℚ)) 0 = none := h.mpr (by decide)
  exact absurd h2 (by decide)

/-- Claim C4 (amended). `calculateKDJ` validates nothing.  For `n ≥ 1` it returns a result of
the length of the series, whatever the bars; for the empty series it returns the empty
series whatever `n`; for a non-empty series and `n < 1` (above the two most negative
integers) it stops on an index out of range instead of returning. -/
theorem calculateKDJ_returns_or_stops {F : Type} [Add F] [Sub F] [Mul F] [Div F] [NatCast F]
    [LT F] [@DecidableRel F (· < ·)] (data : List (StockData F)) (n : Int)
    (hint : IsInt64 n) (hlen : IsInt64 (data.length : Int)) :
    (1 ≤ n → ∃ out, calculateKDJ data n = some out ∧ out.length = data.length) ∧
    (data = [] → calculateKDJ data n = some []) ∧
    (n < 1 → -2 ^ 63 + 2 ≤ n → data ≠ [] → calculateKDJ data n = none) := by
  refine ⟨?_, ?_, ?_⟩
  · intro hn
    exact ⟨_, calculateKDJ_eq data n hn hint.2 hlen.2, length_annotateUpTo _ _ _⟩
  · intro h
    subst h
    rfl
  · intro hn hmin hne
    exact calculateKDJ_none data n hn hmin hlen.2 hne

/-- Witness of amended C4: the sample series with `n = 3` returns four elements, the empty
series with `n = 0` returns the empty series, the sample series with `n = 0` stops. -/
theorem calculateKDJ_returns_or_stops_witness :
    (∃ out, calculateKDJ sampleSeries 3 = some out ∧ out.length = sampleSeries.length) ∧
    calculateKDJ ([] : List (StockData ℚ)) 0 = some [] ∧
    calculateKDJ sampleSeries 0 = none :=
  ⟨(calculateKDJ_returns_or_stops sampleSeries 3 (by decide) (by decide)).1 (by decide),
   (calculateKDJ_returns_or_stops ([] : List (StockData ℚ)) 0 (by decide) (by decide)).2.1 rfl,
   (calculateKDJ_returns_or_stops sampleSeries 0 (by decide) (by decide)).2.2
     (by decide) (by decide) (by decide)⟩

/-- Claim C5. For every non-empty series and every `n ≥ 1`, the first element of the result
of `calculateKDJ` has `K = 50`, `D = 50` and `J = 50`, whatever the prices. -/
theorem calculateKDJ_first_point {F : Type} [LinearOrderedField F]
    (data : List (StockData F)) (n : Int) (hn : 1 ≤ n) (hint : IsInt64 n)
    (hlen : IsInt64 (data.length : Int)) (hne : data ≠ []) :
    ∃ out b, calculateKDJ data n = some out ∧ out[0]? = some b ∧
      b.KDJ.K = 50 ∧ b.KDJ.D = 50 ∧ b.KDJ.J = 50 := by
  have hpos : 0 < data.length := List.length_pos.mpr hne
  have h0 : 0 < (annotateUpTo data n data.length).length := by
    rw [length_annotateUpTo]; exact hpos
  have hb := List.getElem?_eq_getElem h0
  obtain ⟨x, -, hx⟩ := getElem?_annotate data n 0 _ hb
  refine ⟨_, _, calculateKDJ_eq data n hn hint.2 hlen.2, hb, ?_, ?_, ?_⟩
  · rw [hx]
    show (kdSeq data n 0).1 = 50
    rw [kdSeq_zero]
  · rw [hx]
    show (kdSeq data n 0).2 = 50
    rw [kdSeq_zero]
  · rw [hx]
    show (kdjPoint (kdSeq data n 0)).J = 50
    rw [kdjPoint_J, kdSeq_zero]
    norm_num

/-- Witness of C5 on the four-bar sample series with `n = 9`. -/
theorem calculateKDJ_first_point_witness :
    ∃ out b, calculateKDJ sampleSeries 9 = some out ∧ out[0]? = some b ∧
      b.KDJ.K = 50 ∧ b.KDJ.D = 50 ∧ b.KDJ.J = 50 :=
  calculateKDJ_first_point sampleSeries 9 (by decide) (by decide) (by decide) (by decide)

/-- Claim C2. For every series and every `n ≥ 1`, in the result of `calculateKDJ`: every
element has `J = 3 K - 2 D`; and every element `b` at an index `i + 1 > 0`, with `a` the
element before it, has `K = (2/3) K_a + (1/3) RSV` and `D = (2/3) D_a + (1/3) K` with its own
new `K`, where `RSV` is `(Close - lowN) / (highN - lowN) * 100` if `highN - lowN > 1e-9` and
0 otherwise, `lowN` being the least low and `highN` the greatest high of the window at
`i + 1`. -/
theorem calculateKDJ_recurrence {F : Type} [LinearOrderedField F]
    (data : List (StockData F)) (n : Int) (hn : 1 ≤ n) (hint : IsInt64 n)
    (hlen : IsInt64 (data.length : Int)) :
    ∃ out, calculateKDJ data n = some out ∧ out.length = data.length ∧
      (∀ (i : Nat) (b : StockData F), out[i]? = some b →
        b.KDJ.J = 3 * b.KDJ.K - 2 * b.KDJ.D) ∧
      (∀ (i : Nat) (a b : StockData F), out[i]? = some a → out[i + 1]? = some b →
        ∃ lowN highN, IsLeast (windowLows data n (i + 1)) lowN ∧
          IsGreatest (windowHighs data n (i + 1)) highN ∧
          b.KDJ.K = 2 / 3 * a.KDJ.K + 1 / 3 * specRSV b.Close lowN highN ∧
          b.KDJ.D = 2 / 3 * a.KDJ.D + 1 / 3 * b.KDJ.K) := by
  refine ⟨_, calculateKDJ_eq data n hn hint.2 hlen.2, length_annotateUpTo _ _ _, ?_, ?_⟩
  · intro i b hb
    obtain ⟨x, -, hx⟩ := getElem?_annotate data n i b hb
    rw [hx]
    exact kdjPoint_J _
  · intro i a b ha hb
    obtain ⟨x, -, hx⟩ := getElem?_annotate data n i a ha
    obtain ⟨y, hy, hy2⟩ := getElem?_annotate data n (i + 1) b hb
    obtain ⟨lo, hi, hL, hH, hr⟩ := rsvAt_spec data n (i + 1) hn hint.2 hlen.2 y hy
    obtain ⟨hk, hd⟩ := kdSeq_succ data n i
    refine ⟨lo, hi, hL, hH, ?_, ?_⟩
    · rw [hx, hy2]
      show (kdSeq data n (i + 1)).1 = 2 / 3 * (kdSeq data n i).1 + 1 / 3 * specRSV y.Close lo hi
      rw [hk, hr]
    · rw [hx, hy2]
      exact hd

/-- Witness of C2 on the four-bar sample series with `n = 3`. -/
theorem calculateKDJ_recurrence_witness :
    ∃ out, calculateKDJ sampleSeries 3 = some out ∧ out.length = sampleSeries.length ∧
      (∀ (i : Nat) (b : StockData ℚ), out[i]? = some b →
        b.KDJ.J = 3 * b.KDJ.K - 2 * b.KDJ.D) ∧
      (∀ (i : Nat) (a b : StockData ℚ), out[i]? = some a → out[i + 1]? = some b →
        ∃ lowN highN, IsLeast (windowLows sampleSeries 3 (i + 1)) lowN ∧
          IsGreatest (windowHighs sampleSeries 3 (i + 1)) highN ∧
          b.KDJ.K = 2 / 3 * a.KDJ.K + 1 / 3 * specRSV b.Close lowN highN ∧
          b.KDJ.D = 2 / 3 * a.KDJ.D + 1 / 3 * b.KDJ.K) :=
  calculateKDJ_recurrence sampleSeries 3 (by decide) (by decide) (by decide)

/-- Claim C8. For every sequence of annotated stocks, the filter loop of `fetchStockData`
leaves the sequence it ranges over as it was and returns exactly the elements with
`J < 0`, in their original order and with their multiplicity; an element with `J = 0` is
not returned, and the empty sequence gives the empty sequence. -/
theorem filterStage_selects {F : Type} [LinearOrderedField F]
    (stockData : List (StockData F)) :
    (filterStage stockData).1 = stockData ∧
    (filterStage stockData).2 = stockData.filter (fun s => decide (s.KDJ.J < 0)) ∧
    (∀ s, s ∈ (filterStage stockData).2 ↔ s ∈ stockData ∧ s.KDJ.J < 0) ∧
    (∀ s, s.KDJ.J = 0 → s ∉ (filterStage stockData).2) ∧
    (∀ s, s.KDJ.J < 0 → (filterStage stockData).2.count s = stockData.count s) ∧
    List.Sublist (filterStage stockData).2 stockData ∧
    (stockData = [] → (filterStage stockData).2 = []) := by
  have h2 : (filterStage stockData).2 = stockData.filter (fun s => decide (s.KDJ.J < 0)) := by
    simp only [filterStage, filterLoop_eq, List.nil_append]
    push_cast
    rfl
  refine ⟨?_, h2, ?_, ?_, ?_, ?_, ?_⟩
  · simp only [filterStage, filterLoop_eq]
  · intro s
    rw [h2, List.mem_filter]
    simp
  · intro s hs
    rw [h2, List.mem_filter]
    simp [hs]
  · intro s hs
    rw [h2]
    exact List.count_filter (by simpa using hs)
  · rw [h2]
    exact List.filter_sublist _
  · intro h
    rw [h2, h]
    rfl

/-- Witness of C8 on the filter scenario: from J = [5, -2, 0, -0.5] the loop returns the
points with J = -2 and J = -0.5, in that order. -/
theorem filterStage_selects_witness :
    (filterStage sampleAnnotated).2 = [mkJ (-2), mkJ (-1 / 2)] :=
  (filterStage_selects sampleAnnotated).2.1.trans
    (by norm_num [sampleAnnotated, mkJ, List.filter])

/-- Claim C9 (failing input). For `kdjJ = -9223372036854775808`, a value of Go's `int`, the
filter configured by `fetchAllStockData` is "J <= -9223372036854775808": the bound is
negative, not the absolute value of `kdjJ`. -/
theorem kdjJFilter_minInt :
    IsInt64 (-2 ^ 63) ∧ (-2 ^ 63 : Int) < 0 ∧
    kdjJFilter (-2 ^ 63) = some (JCmp.le, -2 ^ 63) ∧
    kdjJFilter (-2 ^ 63) ≠ some (JCmp.le, |(-2 ^ 63 : Int)|) := by
  refine ⟨by decide, by decide, by decide, ?_⟩
  rw [show |(-2 ^ 63 : Int)| = 2 ^ 63 by norm_num]
  decide

/-- Away from the most negative integer, the filter configured for `kdjJ` is "J >= kdjJ"
for a positive `kdjJ` and "J <= |kdjJ|" for a negative one; none for 0. -/
theorem kdjJFilter_in_range (kdjJ : Int) (hint : IsInt64 kdjJ) :
    (0 < kdjJ → kdjJFilter kdjJ = some (JCmp.ge, kdjJ) ∧
      ∀ j, JCmp.selects JCmp.ge kdjJ j ↔ kdjJ ≤ j) ∧
    (kdjJ < 0 → kdjJ ≠ -2 ^ 63 → kdjJFilter kdjJ = some (JCmp.le, |kdjJ|) ∧
      ∀ j, JCmp.selects JCmp.le |kdjJ| j ↔ j ≤ |kdjJ|) ∧
    (kdjJ = 0 → kdjJFilter kdjJ = none) := by
  refine ⟨?_, ?_, ?_⟩
  · intro h
    refine ⟨?_, fun j => Iff.rfl⟩
    unfold kdjJFilter
    rw [if_pos (by omega), if_pos h]
  · intro h hne
    refine ⟨?_, fun j => Iff.rfl⟩
    unfold kdjJFilter
    rw [if_pos (by omega), if_neg (by omega),
      wrapInt_of_isInt64 ⟨by have := hint.2; omega, by have := hint.1; omega⟩,
      abs_of_neg h]
  · intro h
    subst h
    rfl

end Stock
